import Mathlib

/-!
Verification of the chunked multi-year needs-analysis pipeline
(`needs_analysis/chunked_needs_analysis.py`).

The embedding works over `List Char` for string manipulation (Lean's
`String` is a wrapper around `List Char`; `String.data` converts).
Python's `str.split('\n\n')` is embedded as `splitParagraphs`, Python's
`str.strip()` as `pyStripList` (dropping whitespace from both ends), and
the accumulation loop of `chunk_text` as `chunkLoop`.

The remote model calls (`requests.post` to the Ollama endpoint inside
`compare_chunk` and `synthesize_comparisons`) are abstracted as an
`Oracle`: each call either returns the generated text or fails
(`Except.error` models a raised exception, covering both transport
failures and unparseable response bodies).  The pipeline functions
record every remote call they issue in an explicit `CallEvent` trace so
that ordering and call-count properties can be stated.

The SQLite access in `get_statements_by_cb` is modelled by taking the
database as a pre-grouped list of rows: for each distinct `cb_number`
(in query order), the ordered list of `(pdf_url, text)` rows.
-/

/-- The whitespace characters recognised by Python's `str.strip()`
(ASCII subset; the documents are ASCII text). -/
def pyIsSpace (c : Char) : Bool :=
  c = ' ' || c = '\t' || c = '\n' || c = '\x0d' || c = '\x0b' || c = '\x0c'

/-- Python `s.strip()`: remove leading and trailing whitespace.
Implemented by dropping trailing whitespace first (via reverse), then
leading whitespace; the two orders agree. -/
def pyStripList (s : List Char) : List Char :=
  List.dropWhile pyIsSpace ((s.reverse.dropWhile pyIsSpace).reverse)

/-- The paragraph separator `'\n\n'`. -/
def nl : List Char := ['\n', '\n']

/-- Python `text.split('\n\n')`: split on each leftmost non-overlapping
occurrence of the two-newline separator.  Always returns at least one
(possibly empty) piece, like Python's `str.split` with an explicit
separator. -/
def splitParagraphs : List Char → List (List Char)
  | [] => [[]]
  | [c] => [[c]]
  | c :: d :: rest =>
      if c = '\n' ∧ d = '\n' then
        [] :: splitParagraphs rest
      else
        match splitParagraphs (d :: rest) with
        | [] => [[c]]
        | p :: ps => (c :: p) :: ps

example : splitParagraphs "a\n\n\nb".data = ["a".data, "\nb".data] := by decide
example : splitParagraphs "".data = [[]] := by decide
example : splitParagraphs "a\n\n\n\nb".data = ["a".data, [], "b".data] := by decide

/-- The loop of `chunk_text`: fold the paragraph list into chunks.
`current` is the running buffer `current_chunk`, `chunks` the output
list built so far.  Mirrors the Python source line by line:
the `if` condition is `len(current_chunk) + len(para) + 2 <= chunk_size`,
the `else` branch flushes a non-empty buffer (stripped) and restarts the
buffer with the current paragraph, and after the loop the final
non-empty buffer is flushed (stripped). -/
def chunkLoop (chunk_size : Int) : List (List Char) → List Char → List (List Char) → List (List Char)
  | [], current, chunks =>
      if current = [] then chunks else chunks ++ [pyStripList current]
  | para :: rest, current, chunks =>
      if (current.length : Int) + para.length + 2 ≤ chunk_size then
        chunkLoop chunk_size rest (current ++ para ++ nl) chunks
      else
        chunkLoop chunk_size rest (para ++ nl)
          (if current = [] then chunks else chunks ++ [pyStripList current])

/-- `chunk_text(text, chunk_size)` from the source: break text into
chunks of approximately `chunk_size` characters, splitting on paragraph
boundaries.  The module-level default is `CHUNK_SIZE = 12000`. -/
def chunk_text (text : String) (chunk_size : Int) : List String :=
  (chunkLoop chunk_size (splitParagraphs text.data) [] []).map String.mk

example : chunk_text "" 12000 = [""] := by decide
example : chunk_text "ab\n\ncd" 3 = ["ab", "cd"] := by decide
example : chunk_text "ab\n\ncd" 12000 = ["ab\n\ncd"] := by decide
example : chunk_text "  a b  " 12000 = ["a b"] := by decide

/-! ### The paragraph-group view of `chunk_text`

Each chunk produced by the loop is the whitespace-stripped join of a
consecutive, non-empty group of the input's paragraphs.  `accOf g` is
the running buffer after the paragraphs of `g` were appended (each
followed by the separator), `joinSep g` the same group joined with the
separator between paragraphs only. -/

/-- The running buffer holding the paragraph group `g`:
each paragraph followed by `'\n\n'`. -/
def accOf (g : List (List Char)) : List Char :=
  (g.map (fun p => p ++ nl)).flatten

/-- A paragraph group joined by the `'\n\n'` separator. -/
def joinSep : List (List Char) → List Char
  | [] => []
  | [p] => p
  | p :: q :: g => p ++ nl ++ joinSep (q :: g)

/-- The chunk a paragraph group turns into: its separator-join, stripped. -/
def chunkOf (g : List (List Char)) : List Char :=
  pyStripList (joinSep g)

lemma accOf_nil : accOf [] = [] := rfl

lemma accOf_cons (p : List Char) (g : List (List Char)) :
    accOf (p :: g) = p ++ nl ++ accOf g := by
  simp [accOf]

lemma accOf_append_single (g : List (List Char)) (p : List Char) :
    accOf (g ++ [p]) = accOf g ++ (p ++ nl) := by
  simp [accOf]

lemma accOf_eq_nil_iff (g : List (List Char)) : accOf g = [] ↔ g = [] := by
  cases g with
  | nil => simp [accOf]
  | cons p g => simp [accOf_cons, nl]

lemma pyStripList_append_nl (s : List Char) :
    pyStripList (s ++ nl) = pyStripList s := by
  simp [pyStripList, nl, List.dropWhile, pyIsSpace]

lemma accOf_eq_joinSep : ∀ (g : List (List Char)), g ≠ [] → accOf g = joinSep g ++ nl
  | [], h => absurd rfl h
  | [p], _ => by simp [accOf_cons, accOf_nil, joinSep]
  | p :: q :: g', _ => by
      rw [accOf_cons, accOf_eq_joinSep (q :: g') (by simp)]
      show _ = (p ++ nl ++ joinSep (q :: g')) ++ nl
      simp

lemma pyStripList_accOf (g : List (List Char)) (h : g ≠ []) :
    pyStripList (accOf g) = chunkOf g := by
  rw [accOf_eq_joinSep g h, pyStripList_append_nl]; rfl

lemma length_accOf_append (g : List (List Char)) (p : List Char) :
    (accOf (g ++ [p])).length = (accOf g).length + p.length + 2 := by
  rw [accOf_append_single]
  simp [nl]
  omega

/-- The invariant each emitted (and the in-progress) paragraph group
satisfies: a multi-paragraph group's buffer fits the budget, and a
paragraph that cannot fit the budget even alone sits in its own group. -/
def goodGroup (chunk_size : Int) (g : List (List Char)) : Prop :=
  (1 < g.length → ((accOf g).length : Int) ≤ chunk_size) ∧
  (∀ p ∈ g, (p.length : Int) + 2 > chunk_size → g = [p])

lemma goodGroup_nil (chunk_size : Int) : goodGroup chunk_size [] := by
  constructor
  · intro h; simp at h
  · intro p hp; simp at hp

lemma goodGroup_single (chunk_size : Int) (p : List Char) :
    goodGroup chunk_size [p] := by
  constructor
  · intro h; simp at h
  · intro q hq _
    have hqp := List.mem_singleton.1 hq
    subst hqp
    rfl

lemma goodGroup_extend (chunk_size : Int) (g : List (List Char)) (p : List Char)
    (hg : goodGroup chunk_size g)
    (hfit : ((accOf g).length : Int) + p.length + 2 ≤ chunk_size) :
    goodGroup chunk_size (g ++ [p]) := by
  constructor
  · intro _
    rw [length_accOf_append]
    push_cast
    omega
  · intro q hq hbig
    exfalso
    rcases List.mem_append.1 hq with hq | hq
    · have hgq : g = [q] := hg.2 q hq hbig
      subst hgq
      have : (accOf [q]).length = q.length + 2 := by
        simp [accOf, nl]
      rw [this] at hfit
      push_cast at hfit
      omega
    · simp at hq
      subst hq
      have : (0 : Int) ≤ (accOf g).length := by positivity
      omega

/-- The loop invariant of `chunk_text`: starting from a buffer holding
group `g` and already-emitted `chunks`, the loop partitions `g ++ paras`
into consecutive non-empty well-formed groups and appends their chunks. -/
lemma chunkLoop_partition (chunk_size : Int) :
    ∀ (paras : List (List Char)) (g : List (List Char)) (chunks : List (List Char)),
      goodGroup chunk_size g →
      ∃ groups : List (List (List Char)),
        (∀ h ∈ groups, h ≠ [] ∧ goodGroup chunk_size h) ∧
        groups.flatten = g ++ paras ∧
        chunkLoop chunk_size paras (accOf g) chunks = chunks ++ groups.map chunkOf := by
  intro paras
  induction paras with
  | nil =>
    intro g chunks hg
    by_cases hgnil : g = []
    · subst hgnil
      refine ⟨[], by simp, by simp, ?_⟩
      simp [chunkLoop, accOf]
    · refine ⟨[g], by simp [hgnil, hg], by simp, ?_⟩
      have hacc : accOf g ≠ [] := by
        rw [ne_eq, accOf_eq_nil_iff]; exact hgnil
      simp only [chunkLoop, if_neg hacc]
      rw [pyStripList_accOf g hgnil]
      simp
  | cons p rest ih =>
    intro g chunks hg
    by_cases hcond : ((accOf g).length : Int) + p.length + 2 ≤ chunk_size
    · obtain ⟨groups, h1, h2, h3⟩ :=
        ih (g ++ [p]) chunks (goodGroup_extend chunk_size g p hg hcond)
      refine ⟨groups, h1, by rw [h2]; simp, ?_⟩
      rw [← h3]
      simp only [chunkLoop, if_pos hcond]
      rw [accOf_append_single]
      simp
    · by_cases hgnil : g = []
      · subst hgnil
        obtain ⟨groups, h1, h2, h3⟩ := ih [p] chunks (goodGroup_single chunk_size p)
        refine ⟨groups, h1, by rw [h2]; rfl, ?_⟩
        rw [← h3]
        simp only [chunkLoop, accOf_nil]
        rw [if_neg (by rw [accOf_nil] at hcond; exact hcond)]
        simp [accOf_cons, accOf_nil]
      · obtain ⟨groups, h1, h2, h3⟩ :=
          ih [p] (chunks ++ [chunkOf g]) (goodGroup_single chunk_size p)
        refine ⟨g :: groups, ?_, ?_, ?_⟩
        · intro h hh
          rcases List.mem_cons.1 hh with rfl | hh
          · exact ⟨hgnil, hg⟩
          · exact h1 h hh
        · simp [h2]
        · have hacc : accOf g ≠ [] := by
            rw [ne_eq, accOf_eq_nil_iff]; exact hgnil
          simp only [chunkLoop, if_neg hcond, if_neg hacc]
          rw [pyStripList_accOf g hgnil]
          have : accOf [p] = p ++ nl := by simp [accOf]
          rw [← this, h3]
          simp

/-- Shared characterisation: `chunk_text` partitions the paragraph list
into consecutive non-empty groups and emits each group's stripped join. -/
lemma chunk_text_groups (text : String) (chunk_size : Int) :
    ∃ groups : List (List (List Char)),
      (∀ g ∈ groups, g ≠ [] ∧ goodGroup chunk_size g) ∧
      groups.flatten = splitParagraphs text.data ∧
      chunk_text text chunk_size = groups.map (fun g => String.mk (chunkOf g)) := by
  obtain ⟨groups, h1, h2, h3⟩ :=
    chunkLoop_partition chunk_size (splitParagraphs text.data) [] [] (goodGroup_nil chunk_size)
  refine ⟨groups, h1, by simpa using h2, ?_⟩
  unfold chunk_text
  rw [show accOf [] = [] from rfl] at h3
  rw [h3]
  simp

/-! ### Length bounds and non-emptiness -/

lemma length_dropWhile_le' (p : Char → Bool) (l : List Char) :
    (l.dropWhile p).length ≤ l.length := by
  induction l with
  | nil => simp
  | cons c l ih =>
    rw [List.dropWhile]
    cases p c with
    | true => simpa using Nat.le_succ_of_le ih
    | false => simp

lemma length_pyStripList_le (s : List Char) :
    (pyStripList s).length ≤ s.length := by
  unfold pyStripList
  calc (List.dropWhile pyIsSpace ((s.reverse.dropWhile pyIsSpace).reverse)).length
      ≤ ((s.reverse.dropWhile pyIsSpace).reverse).length :=
        length_dropWhile_le' _ _
    _ = (s.reverse.dropWhile pyIsSpace).length := by simp
    _ ≤ s.reverse.length := length_dropWhile_le' _ _
    _ = s.length := by simp

lemma splitParagraphs_ne_nil : ∀ (l : List Char), splitParagraphs l ≠ []
  | [] => by simp [splitParagraphs]
  | [c] => by simp [splitParagraphs]
  | c :: d :: rest => by
      rw [splitParagraphs]
      split
      · simp
      · split <;> simp

lemma chunkLoop_ne_nil (chunk_size : Int) :
    ∀ (paras : List (List Char)) (current : List Char) (chunks : List (List Char)),
      current ≠ [] ∨ paras ≠ [] → chunkLoop chunk_size paras current chunks ≠ []
  | [], current, chunks => by
      intro h
      rcases h with h | h
      · rw [chunkLoop, if_neg h]; simp
      · exact absurd rfl h
  | para :: rest, current, chunks => by
      intro _
      rw [chunkLoop]
      split
      · exact chunkLoop_ne_nil chunk_size rest _ chunks (Or.inl (by simp [nl]))
      · exact chunkLoop_ne_nil chunk_size rest _ _ (Or.inl (by simp [nl]))

/-! ### Claims about the chunker -/

/-- C1: For every input text and every chunk-size budget, the chunks
returned by `chunk_text` are exactly the stripped separator-joins of a
partition of the input's paragraph list into consecutive non-empty
groups: restoring the double-newline separators between and inside the
chunks recovers every paragraph of the input, in order, with no
paragraph lost or duplicated, losslessly except for the whitespace
stripped at each chunk's two edges. -/
theorem chunk_text_reassembles_paragraphs (text : String) (chunk_size : Int) :
    ∃ groups : List (List (List Char)),
      (∀ g ∈ groups, g ≠ []) ∧
      groups.flatten = splitParagraphs text.data ∧
      chunk_text text chunk_size = groups.map (fun g => String.mk (chunkOf g)) := by
  obtain ⟨groups, h1, h2, h3⟩ := chunk_text_groups text chunk_size
  exact ⟨groups, fun g hg => (h1 g hg).1, h2, h3⟩

/-- C5: For every budget ≥ 1 no chunk boundary splits a paragraph (each
chunk is the stripped join of a consecutive group of whole paragraphs),
a paragraph longer than the budget forms its own oversized chunk (its
group is a singleton, so it is emitted whole up to edge stripping,
never split or truncated), and every chunk made of more than one
paragraph has length at most the budget. -/
theorem chunk_text_paragraph_integrity (text : String) (chunk_size : Int)
    (hpos : 1 ≤ chunk_size) :
    ∃ groups : List (List (List Char)),
      (∀ g ∈ groups, g ≠ []) ∧
      groups.flatten = splitParagraphs text.data ∧
      chunk_text text chunk_size = groups.map (fun g => String.mk (chunkOf g)) ∧
      (∀ g ∈ groups, ∀ p ∈ g, (p.length : Int) > chunk_size → g = [p]) ∧
      (∀ g ∈ groups, 1 < g.length → ((chunkOf g).length : Int) ≤ chunk_size) := by
  obtain ⟨groups, h1, h2, h3⟩ := chunk_text_groups text chunk_size
  refine ⟨groups, fun g hg => (h1 g hg).1, h2, h3, ?_, ?_⟩
  · intro g hg p hp hbig
    exact (h1 g hg).2.2 p hp (by omega)
  · intro g hg hlen
    have hne : g ≠ [] := (h1 g hg).1
    have hacc : ((accOf g).length : Int) ≤ chunk_size := (h1 g hg).2.1 hlen
    have hj : (accOf g).length = (joinSep g).length + 2 := by
      rw [accOf_eq_joinSep g hne]
      simp [nl]
    have hstrip : (chunkOf g).length ≤ (joinSep g).length :=
      length_pyStripList_le _
    omega

/-- Witness for C5 at the concrete input "ab\n\ncd" with budget 3. -/
theorem chunk_text_paragraph_integrity_witness :
    (1 : Int) ≤ 3 ∧
    (∃ groups : List (List (List Char)),
      (∀ g ∈ groups, g ≠ []) ∧
      groups.flatten = splitParagraphs ("ab\n\ncd" : String).data ∧
      chunk_text "ab\n\ncd" 3 = groups.map (fun g => String.mk (chunkOf g)) ∧
      (∀ g ∈ groups, ∀ p ∈ g, (p.length : Int) > 3 → g = [p]) ∧
      (∀ g ∈ groups, 1 < g.length → ((chunkOf g).length : Int) ≤ 3)) :=
  ⟨by norm_num, chunk_text_paragraph_integrity "ab\n\ncd" 3 (by norm_num)⟩

/-- C6 counterexample: `chunk_text` applied to the empty string does NOT
return zero chunks — it returns exactly one chunk, the empty string
(Python: `"".split('\n\n') == ['']`, the loop buffers `'\n\n'`, and the
final flush strips it to `''`). -/
theorem chunk_text_empty_counterexample :
    chunk_text "" 12000 = [""] ∧ chunk_text "" 12000 ≠ [] := by
  constructor
  · decide
  · decide

/-- C6 amended: `chunk_text` applied to the empty string returns exactly
one chunk — the empty string — under every budget, and `chunk_text`
never returns zero chunks, for any input text and any budget. -/
theorem chunk_text_never_empty_amended :
    (∀ chunk_size : Int, chunk_text "" chunk_size = [""]) ∧
    (∀ (text : String) (chunk_size : Int), chunk_text text chunk_size ≠ []) := by
  constructor
  · intro chunk_size
    show (chunkLoop chunk_size (splitParagraphs ("" : String).data) [] []).map String.mk = [""]
    rw [show splitParagraphs ("" : String).data = [[]] from rfl]
    rw [chunkLoop]
    split <;> rfl
  · intro text chunk_size hmap
    have h := List.map_eq_nil_iff.1 hmap
    exact chunkLoop_ne_nil chunk_size _ [] []
      (Or.inr (splitParagraphs_ne_nil _)) h

/-! ### The pipeline: oracle, call trace, analyze, run

The remote service is abstracted as an `Oracle`; every call the
pipeline issues is recorded as a `CallEvent` carrying its arguments, so
call counts, call order, and the fragments passed can be stated. -/

/-- The fragment used for a year whose chunk list is shorter than the
aligned index (source: `"[No content in this section]"`). -/
def sentinel : String := "[No content in this section]"

/-- One element of `chunk_analyses`: the 1-based section number and the
analysis text (on failure, the JSON error placeholder). -/
structure ChunkAnalysis where
  sec : Nat
  analysis : String
deriving DecidableEq

/-- The error placeholder `json.dumps({"error": str(e)})` recorded when
a section's comparator call raises. -/
def errorAnalysis (e : String) : String :=
  "\x7b\"error\": \"" ++ e ++ "\"\x7d"

/-- The remote model service seen from the pipeline: `compare` is the
call `compare_chunk` makes (entity id, 0-based section index, total
section count, three year fragments), `synthesize` the call
`synthesize_comparisons` makes.  `Except.error` models a raised
exception: transport failure, non-2xx status (`raise_for_status`), or a
response body not parseable into the expected structure. -/
structure Oracle where
  compare : Nat → Nat → Nat → String → String → String → Except String String
  synthesize : Nat → List ChunkAnalysis → Except String String

/-- A remote call issued by the pipeline, with the arguments it carried. -/
inductive CallEvent
  | compare (cb : Nat) (i total : Nat) (c24 c25 c26 : String)
  | synth (cb : Nat) (analyses : List ChunkAnalysis)
deriving DecidableEq

/-- The entity a call was made for. -/
def evCB : CallEvent → Nat
  | .compare cb _ _ _ _ _ => cb
  | .synth cb _ => cb

/-- Whether a call is a section-comparator call. -/
def isCompare : CallEvent → Bool
  | .compare _ _ _ _ _ _ => true
  | .synth _ _ => false

/-- `fy_chunks[i] if i < len(fy_chunks) else "[No content in this section]"`. -/
def getChunk (chunks : List String) (i : Nat) : String :=
  chunks.getD i sentinel

/-- `max_chunks = max(len(fy2024_chunks), len(fy2025_chunks), len(fy2026_chunks))`
(all three chunked with the default `CHUNK_SIZE = 12000`). -/
def alignedCount (fy2024 fy2025 fy2026 : String) : Nat :=
  max (max (chunk_text fy2024 12000).length (chunk_text fy2025 12000).length)
    (chunk_text fy2026 12000).length

/-- The record one iteration of the section loop appends: on success of
the comparator call, `{"section": i+1, "analysis": analysis}`; on a
raised exception, the error placeholder (the `except` branch). -/
def sectionResult (o : Oracle) (cb total : Nat) (c24 c25 c26 : List String) (i : Nat) :
    ChunkAnalysis :=
  match o.compare cb i total (getChunk c24 i) (getChunk c25 i) (getChunk c26 i) with
  | .ok analysis => ⟨i + 1, analysis⟩
  | .error e => ⟨i + 1, errorAnalysis e⟩

/-- The `for i in range(max_chunks)` loop of `analyze_multi_year_chunked`:
one comparator call per index; the `try` covers only that call, so a
failure is recorded as a placeholder and the loop continues. -/
def sectionLoop (o : Oracle) (cb total : Nat) (c24 c25 c26 : List String) :
    List Nat → List CallEvent × List ChunkAnalysis
  | [] => ([], [])
  | i :: rest =>
      let ev := CallEvent.compare cb i total (getChunk c24 i) (getChunk c25 i) (getChunk c26 i)
      let res := sectionResult o cb total c24 c25 c26 i
      let next := sectionLoop o cb total c24 c25 c26 rest
      (ev :: next.1, res :: next.2)

/-- The `chunk_analyses` list `analyze_multi_year_chunked` builds. -/
def chunkAnalysesOf (o : Oracle) (cb : Nat) (fy2024 fy2025 fy2026 : String) :
    List ChunkAnalysis :=
  (sectionLoop o cb (alignedCount fy2024 fy2025 fy2026)
    (chunk_text fy2024 12000) (chunk_text fy2025 12000) (chunk_text fy2026 12000)
    (List.range (alignedCount fy2024 fy2025 fy2026))).2

/-- `analyze_multi_year_chunked`: chunk the three documents, compare
each aligned section in index order, then make exactly one synthesis
call on the collected list.  Returns the call trace and either the
final comparison text or the exception the synthesis call raised (that
call has no `try` around it, so its failure propagates). -/
def analyze_multi_year_chunked (o : Oracle) (cb : Nat) (fy2024 fy2025 fy2026 : String) :
    List CallEvent × Except String String :=
  let pr := sectionLoop o cb (alignedCount fy2024 fy2025 fy2026)
    (chunk_text fy2024 12000) (chunk_text fy2025 12000) (chunk_text fy2026 12000)
    (List.range (alignedCount fy2024 fy2025 fy2026))
  (pr.1 ++ [CallEvent.synth cb pr.2], o.synthesize cb pr.2)

/-- The per-board year dictionary built row by row (keys can only be
the three fiscal years). -/
structure Statements where
  fy2024 : Option String
  fy2025 : Option String
  fy2026 : Option String
deriving DecidableEq

/-- The empty dictionary `statements = {}`. -/
def emptyStatements : Statements := ⟨none, none, none⟩

/-- Whether `needle` is a prefix of `hay` (helper for substring test). -/
def isPrefixCheck : List Char → List Char → Bool
  | [], _ => true
  | _ :: _, [] => false
  | a :: as, b :: bs => a = b && isPrefixCheck as bs

/-- Python's substring test `needle in hay`. -/
def containsSub (needle : List Char) : List Char → Bool
  | [] => isPrefixCheck needle []
  | c :: t => isPrefixCheck needle (c :: t) || containsSub needle t

/-- One row's effect on the dictionary:
`if 'FY2024' in url or '2024' in url: statements['FY2024'] = text`,
`elif` likewise for 2025 and 2026, else no effect. -/
def classifyRow (st : Statements) (url text : String) : Statements :=
  if containsSub "FY2024".data url.data || containsSub "2024".data url.data then
    ⟨some text, st.fy2025, st.fy2026⟩
  else if containsSub "FY2025".data url.data || containsSub "2025".data url.data then
    ⟨st.fy2024, some text, st.fy2026⟩
  else if containsSub "FY2026".data url.data || containsSub "2026".data url.data then
    ⟨st.fy2024, st.fy2025, some text⟩
  else st

/-- The dictionary for a board's ordered row list. -/
def statementsOf (rows : List (String × String)) : Statements :=
  rows.foldl (fun st r => classifyRow st r.1 r.2) emptyStatements

/-- `len(statements)`: the number of years present. -/
def yearCount (st : Statements) : Nat :=
  (if st.fy2024.isSome then 1 else 0) + (if st.fy2025.isSome then 1 else 0) +
    (if st.fy2026.isSome then 1 else 0)

/-- `get_statements_by_cb`, with the SQLite query modelled as the
pre-grouped row list `db`: one entry per distinct BK `cb_number` in
query order, carrying its `(pdf_url, text)` rows ordered by `pdf_url`.
Classify each row by year and keep only the boards with all three
years (`len(statements) == 3`; with only three possible keys this means
every year is present). -/
def get_statements_by_cb (db : List (Nat × List (String × String))) :
    List (Nat × String × String × String) :=
  db.filterMap fun entry =>
    match statementsOf entry.2 with
    | ⟨some t24, some t25, some t26⟩ => some (entry.1, t24, t25, t26)
    | _ => none

/-- The output file name `f"needs_comparison_BK_CB{cb_num}.json"`. -/
def reportFilename (cb : Nat) : String :=
  "needs_comparison_BK_CB" ++ toString cb ++ ".json"

/-- The entity loop of `run()` (`for i, (cb_num, statements) in
enumerate(cb_data.items())`): stop before the sixth entity
(`if i >= 5: break`); analyze each entity, then write its report file.
`analyze_multi_year_chunked` raising (a failed synthesis call)
propagates — the loop has no `try`, so the whole run aborts: no file
for the failing entity, and no later entity is touched.  Returns the
call trace, the files written (entity id, filename, content), and the
run's outcome. -/
def runLoop (o : Oracle) :
    Nat → List (Nat × String × String × String) →
      List CallEvent × List (Nat × String × String) × Except String Unit
  | _, [] => ([], [], .ok ())
  | i, (cb, t24, t25, t26) :: rest =>
      if 5 ≤ i then ([], [], .ok ())
      else
        match analyze_multi_year_chunked o cb t24 t25 t26 with
        | (evs, .error e) => (evs, [], .error e)
        | (evs, .ok output) =>
            (evs ++ (runLoop o (i + 1) rest).1,
              (cb, reportFilename cb, output) :: (runLoop o (i + 1) rest).2.1,
              (runLoop o (i + 1) rest).2.2)

/-- `run()`: fetch the eligible boards and process at most the first
five, in order. -/
def run (o : Oracle) (db : List (Nat × List (String × String))) :
    List CallEvent × List (Nat × String × String) × Except String Unit :=
  runLoop o 0 (get_statements_by_cb db)

deriving instance DecidableEq for Except

/-- An oracle whose calls all succeed (for concrete checks). -/
def oracleOk : Oracle :=
  ⟨fun _ _ _ _ _ _ => .ok "A", fun _ _ => .ok "S"⟩

example :
    analyze_multi_year_chunked oracleOk 1 "a" "b" "c" =
      ([CallEvent.compare 1 0 1 "a" "b" "c", CallEvent.synth 1 [⟨1, "A"⟩]],
        Except.ok "S") := by decide

example :
    run oracleOk [(1, [("u2024", "a"), ("u2025", "b"), ("u2026", "c")])] =
      ([CallEvent.compare 1 0 1 "a" "b" "c", CallEvent.synth 1 [⟨1, "A"⟩]],
        [(1, "needs_comparison_BK_CB1.json", "S")], Except.ok ()) := by decide

/-! ### Properties of the section loop and `analyze_multi_year_chunked` -/

lemma countP_map_eq_length {A B : Type} (f : A → B) (p : B → Bool) (l : List A)
    (h : ∀ x, p (f x) = true) : List.countP p (l.map f) = l.length := by
  induction l with
  | nil => rfl
  | cons x t ih =>
    rw [List.map_cons, List.countP_cons_of_pos _ _ (h x), ih, List.length_cons]

lemma sectionLoop_eq (o : Oracle) (cb total : Nat) (c24 c25 c26 : List String) :
    ∀ idxs : List Nat,
      sectionLoop o cb total c24 c25 c26 idxs =
        (idxs.map (fun i => CallEvent.compare cb i total
            (getChunk c24 i) (getChunk c25 i) (getChunk c26 i)),
         idxs.map (sectionResult o cb total c24 c25 c26)) := by
  intro idxs
  induction idxs with
  | nil => rfl
  | cons i rest ih => simp [sectionLoop, ih]

/-- The trace `analyze_multi_year_chunked` produces: one comparator
call per aligned index in order, then the single synthesis call. -/
lemma analyze_trace (o : Oracle) (cb : Nat) (fy2024 fy2025 fy2026 : String) :
    (analyze_multi_year_chunked o cb fy2024 fy2025 fy2026).1 =
      (List.range (alignedCount fy2024 fy2025 fy2026)).map
        (fun i => CallEvent.compare cb i (alignedCount fy2024 fy2025 fy2026)
          (getChunk (chunk_text fy2024 12000) i) (getChunk (chunk_text fy2025 12000) i)
          (getChunk (chunk_text fy2026 12000) i)) ++
      [CallEvent.synth cb (chunkAnalysesOf o cb fy2024 fy2025 fy2026)] := by
  unfold analyze_multi_year_chunked chunkAnalysesOf
  rw [sectionLoop_eq]

lemma chunkAnalysesOf_eq (o : Oracle) (cb : Nat) (fy2024 fy2025 fy2026 : String) :
    chunkAnalysesOf o cb fy2024 fy2025 fy2026 =
      (List.range (alignedCount fy2024 fy2025 fy2026)).map
        (sectionResult o cb (alignedCount fy2024 fy2025 fy2026)
          (chunk_text fy2024 12000) (chunk_text fy2025 12000) (chunk_text fy2026 12000)) := by
  unfold chunkAnalysesOf
  rw [sectionLoop_eq]

/-- C2: the aligned section count equals the maximum of the three
documents' chunk counts — the trace holds exactly that many comparator
calls — and every comparator call in the trace carries the board, an
index below the count, the count as its total, and, for each year whose
chunk list is shorter than `i + 1`, the sentinel
`"[No content in this section]"` as that year's fragment. -/
theorem aligned_count_is_max_and_sentinel (o : Oracle) (cb : Nat)
    (fy2024 fy2025 fy2026 : String) (i total : Nat) (a b c : String)
    (hmem : CallEvent.compare cb i total a b c ∈
      (analyze_multi_year_chunked o cb fy2024 fy2025 fy2026).1) :
    ((analyze_multi_year_chunked o cb fy2024 fy2025 fy2026).1.countP isCompare =
      max (max (chunk_text fy2024 12000).length (chunk_text fy2025 12000).length)
        (chunk_text fy2026 12000).length) ∧
    total = alignedCount fy2024 fy2025 fy2026 ∧
    i < alignedCount fy2024 fy2025 fy2026 ∧
    ((chunk_text fy2024 12000).length ≤ i → a = sentinel) ∧
    ((chunk_text fy2025 12000).length ≤ i → b = sentinel) ∧
    ((chunk_text fy2026 12000).length ≤ i → c = sentinel) := by
  rw [analyze_trace] at hmem ⊢
  constructor
  · rw [List.countP_append, countP_map_eq_length _ _ _ (fun x => rfl)]
    simp [isCompare, alignedCount]
  · rcases List.mem_append.1 hmem with hmem | hmem
    · obtain ⟨j, hj, hev⟩ := List.mem_map.1 hmem
      obtain ⟨rfl, rfl, rfl, rfl, rfl⟩ :
          j = i ∧ alignedCount fy2024 fy2025 fy2026 = total ∧
          getChunk (chunk_text fy2024 12000) j = a ∧
          getChunk (chunk_text fy2025 12000) j = b ∧
          getChunk (chunk_text fy2026 12000) j = c := by
        injection hev with h1 h2 h3 h4 h5 h6
        exact ⟨h2, h3, h4, h5, h6⟩
      refine ⟨rfl, List.mem_range.1 hj, ?_, ?_, ?_⟩ <;>
        · intro hlen
          exact List.getD_eq_default _ _ hlen
    · exact CallEvent.noConfusion (List.mem_singleton.1 hmem)

/-- C3: if the comparator call for an aligned index fails, that index's
entry in `chunk_analyses` is the error placeholder carrying the 1-based
section number and the failure reason, every aligned index's comparator
call is nonetheless in the trace, and the single synthesis call is
still made with the collected list (which embeds the placeholder) as
its input. -/
theorem comparator_failure_isolated (o : Oracle) (cb : Nat)
    (fy2024 fy2025 fy2026 : String) (i : Nat) (e : String)
    (hi : i < alignedCount fy2024 fy2025 fy2026)
    (hfail : o.compare cb i (alignedCount fy2024 fy2025 fy2026)
        (getChunk (chunk_text fy2024 12000) i) (getChunk (chunk_text fy2025 12000) i)
        (getChunk (chunk_text fy2026 12000) i) = .error e) :
    (chunkAnalysesOf o cb fy2024 fy2025 fy2026)[i]? =
      some ⟨i + 1, errorAnalysis e⟩ ∧
    (∀ j, j < alignedCount fy2024 fy2025 fy2026 →
      CallEvent.compare cb j (alignedCount fy2024 fy2025 fy2026)
        (getChunk (chunk_text fy2024 12000) j) (getChunk (chunk_text fy2025 12000) j)
        (getChunk (chunk_text fy2026 12000) j) ∈
        (analyze_multi_year_chunked o cb fy2024 fy2025 fy2026).1) ∧
    CallEvent.synth cb (chunkAnalysesOf o cb fy2024 fy2025 fy2026) ∈
      (analyze_multi_year_chunked o cb fy2024 fy2025 fy2026).1 := by
  refine ⟨?_, ?_, ?_⟩
  · rw [chunkAnalysesOf_eq, List.getElem?_map, List.getElem?_range hi]
    rw [Option.map_some']
    unfold sectionResult
    rw [hfail]
  · intro j hj
    rw [analyze_trace]
    refine List.mem_append.2 (Or.inl (List.mem_map.2 ⟨j, List.mem_range.2 hj, rfl⟩))
  · rw [analyze_trace]
    exact List.mem_append.2 (Or.inr (List.mem_singleton.2 rfl))

/-- C4: for every entity invocation, the trace is a block of comparator
calls — one per aligned section — followed by the single synthesis
call for that entity: synthesis happens exactly once, after all section
comparisons have been attempted, never interleaved with them. -/
theorem synthesis_once_after_sections (o : Oracle) (cb : Nat)
    (fy2024 fy2025 fy2026 : String) :
    ∃ (pre : List CallEvent) (analyses : List ChunkAnalysis),
      (analyze_multi_year_chunked o cb fy2024 fy2025 fy2026).1 =
        pre ++ [CallEvent.synth cb analyses] ∧
      pre.length = alignedCount fy2024 fy2025 fy2026 ∧
      ∀ ev ∈ pre, isCompare ev = true := by
  refine ⟨_, _, analyze_trace o cb fy2024 fy2025 fy2026, by simp, ?_⟩
  intro ev hev
  obtain ⟨j, _, rfl⟩ := List.mem_map.1 hev
  rfl

/-! ### Properties of the entity loop `run` -/

lemma analyze_evCB (o : Oracle) (cb : Nat) (fy2024 fy2025 fy2026 : String) :
    ∀ ev ∈ (analyze_multi_year_chunked o cb fy2024 fy2025 fy2026).1, evCB ev = cb := by
  intro ev hev
  rw [analyze_trace] at hev
  rcases List.mem_append.1 hev with hev | hev
  · obtain ⟨j, _, rfl⟩ := List.mem_map.1 hev
    rfl
  · rw [List.mem_singleton.1 hev]
    rfl

/-- Every call in the run's trace belongs to one of the first
`5 - i` entities of the remaining list. -/
lemma runLoop_events_take (o : Oracle) :
    ∀ (items : List (Nat × String × String × String)) (i : Nat) (ev : CallEvent),
      ev ∈ (runLoop o i items).1 →
      evCB ev ∈ (items.take (5 - i)).map (fun x => x.1)
  | [], i, ev => by
      intro h
      simp [runLoop] at h
  | (cb, t24, t25, t26) :: rest, i, ev => by
      intro hx
      by_cases h5 : 5 ≤ i
      · rw [runLoop, if_pos h5] at hx
        simp at hx
      · rw [runLoop, if_neg h5] at hx
        have htake : 5 - i = (5 - (i + 1)) + 1 := by omega
        rw [htake, List.take_succ_cons, List.map_cons]
        split at hx
        next evs e heq =>
          have h1 : evCB ev = cb :=
            analyze_evCB o cb t24 t25 t26 ev (by rw [heq]; exact hx)
          exact List.mem_cons.2 (Or.inl h1)
        next evs out heq =>
          rcases List.mem_append.1 hx with hx | hx
          · have h1 : evCB ev = cb :=
              analyze_evCB o cb t24 t25 t26 ev (by rw [heq]; exact hx)
            exact List.mem_cons.2 (Or.inl h1)
          · exact List.mem_cons.2 (Or.inr (runLoop_events_take o rest (i + 1) ev hx))

/-- Every file the run writes belongs to one of the first `5 - i`
entities of the remaining list. -/
lemma runLoop_files_take (o : Oracle) :
    ∀ (items : List (Nat × String × String × String)) (i : Nat)
      (f : Nat × String × String),
      f ∈ (runLoop o i items).2.1 →
      f.1 ∈ (items.take (5 - i)).map (fun x => x.1)
  | [], i, f => by
      intro h
      simp [runLoop] at h
  | (cb, t24, t25, t26) :: rest, i, f => by
      intro hx
      by_cases h5 : 5 ≤ i
      · rw [runLoop, if_pos h5] at hx
        simp at hx
      · rw [runLoop, if_neg h5] at hx
        have htake : 5 - i = (5 - (i + 1)) + 1 := by omega
        rw [htake, List.take_succ_cons, List.map_cons]
        split at hx
        next evs e heq =>
          simp at hx
        next evs out heq =>
          rcases List.mem_cons.1 hx with rfl | hx
          · exact List.mem_cons.2 (Or.inl rfl)
          · exact List.mem_cons.2 (Or.inr (runLoop_files_take o rest (i + 1) f hx))

/-- In a list with distinct keys, two members with the same key are equal. -/
lemma nodup_keys_eq {A B : Type} :
    ∀ (l : List (B × A)), (l.map (fun x => x.1)).Nodup →
      ∀ a b : B × A, a ∈ l → b ∈ l → a.1 = b.1 → a = b
  | [], _, a, _, ha, _, _ => absurd ha (List.not_mem_nil a)
  | x :: t, hnd, a, b, ha, hb, heq => by
      rw [List.map_cons, List.nodup_cons] at hnd
      rcases List.mem_cons.1 ha with ha' | ha'
      · rcases List.mem_cons.1 hb with hb' | hb'
        · rw [ha', hb']
        · exfalso
          apply hnd.1
          rw [← ha', heq]
          exact List.mem_map_of_mem _ hb'
      · rcases List.mem_cons.1 hb with hb' | hb'
        · exfalso
          apply hnd.1
          rw [← hb', ← heq]
          exact List.mem_map_of_mem _ ha'
        · exact nodup_keys_eq t hnd.2 a b ha' hb' heq

/-- Membership in `get_statements_by_cb`: an eligible entry comes from a
database row group whose statements hold all three years. -/
lemma mem_get_statements (db : List (Nat × List (String × String)))
    (x : Nat × String × String × String) (hx : x ∈ get_statements_by_cb db) :
    ∃ rows, (x.1, rows) ∈ db ∧
      statementsOf rows = ⟨some x.2.1, some x.2.2.1, some x.2.2.2⟩ := by
  unfold get_statements_by_cb at hx
  obtain ⟨entry, hentry, hsome⟩ := List.mem_filterMap.1 hx
  refine ⟨entry.2, ?_, ?_⟩
  · split at hsome
    next t24 t25 t26 hmatch =>
      cases hsome
      exact hentry
    next =>
      exact absurd hsome (by simp)
  · split at hsome
    next t24 t25 t26 hmatch =>
      cases hsome
      exact hmatch
    next =>
      exact absurd hsome (by simp)

lemma yearCount_all_some (t24 t25 t26 : String) :
    yearCount ⟨some t24, some t25, some t26⟩ = 3 := rfl

/-- C9: an entity whose rows classify into fewer than three yearly
documents is excluded by the eligibility filter, so the run makes no
comparator or synthesizer call for it and writes no report file for it. -/
theorem incomplete_entity_excluded (o : Oracle) (db : List (Nat × List (String × String)))
    (cb : Nat) (rows : List (String × String))
    (hmem : (cb, rows) ∈ db)
    (hnodup : (db.map (fun x => x.1)).Nodup)
    (hcount : yearCount (statementsOf rows) < 3) :
    cb ∉ (get_statements_by_cb db).map (fun x => x.1) ∧
    ((run o db).1.all fun ev => evCB ev != cb) = true ∧
    ((run o db).2.1.all fun f => f.1 != cb) = true := by
  have hnotin : cb ∉ (get_statements_by_cb db).map (fun x => x.1) := by
    intro hin
    obtain ⟨x, hxg, hx1⟩ := List.mem_map.1 hin
    obtain ⟨rows', hrows', hst⟩ := mem_get_statements db x hxg
    rw [hx1] at hrows'
    have heqp := nodup_keys_eq db hnodup (cb, rows) (cb, rows') hmem hrows' rfl
    have hre : rows = rows' := congrArg Prod.snd heqp
    rw [hre, hst, yearCount_all_some] at hcount
    omega
  refine ⟨hnotin, ?_, ?_⟩
  · rw [List.all_eq_true]
    intro ev hev
    rw [bne_iff_ne]
    intro hcb
    apply hnotin
    have h := runLoop_events_take o (get_statements_by_cb db) 0 ev hev
    rw [hcb] at h
    exact List.map_subset _ (List.take_subset _ _) h
  · rw [List.all_eq_true]
    intro f hf
    rw [bne_iff_ne]
    intro hcb
    apply hnotin
    have h := runLoop_files_take o (get_statements_by_cb db) 0 f hf
    rw [hcb] at h
    exact List.map_subset _ (List.take_subset _ _) h

/-- C10: the run touches at most the first five eligible entities: an
eligible entity beyond the fifth gets no comparator call, no
synthesizer call, and no report file. -/
theorem only_first_five_processed (o : Oracle) (db : List (Nat × List (String × String)))
    (cb : Nat) (t24 t25 t26 : String)
    (hnodup : ((get_statements_by_cb db).map (fun x => x.1)).Nodup)
    (hmem : (cb, t24, t25, t26) ∈ (get_statements_by_cb db).drop 5) :
    ((run o db).1.all fun ev => evCB ev != cb) = true ∧
    ((run o db).2.1.all fun f => f.1 != cb) = true := by
  have hnotin : cb ∉ ((get_statements_by_cb db).take 5).map (fun x => x.1) := by
    intro hin
    have hdropmem : cb ∈ ((get_statements_by_cb db).drop 5).map (fun x => x.1) :=
      List.mem_map_of_mem _ hmem
    rw [← List.take_append_drop 5 (get_statements_by_cb db), List.map_append] at hnodup
    exact (List.nodup_append.1 hnodup).2.2 hin hdropmem
  constructor
  · rw [List.all_eq_true]
    intro ev hev
    rw [bne_iff_ne]
    intro hcb
    apply hnotin
    have h := runLoop_events_take o (get_statements_by_cb db) 0 ev hev
    rw [hcb] at h
    exact h
  · rw [List.all_eq_true]
    intro f hf
    rw [bne_iff_ne]
    intro hcb
    apply hnotin
    have h := runLoop_files_take o (get_statements_by_cb db) 0 f hf
    rw [hcb] at h
    exact h

lemma analyze_ok_ne_fail (o : Oracle) (cb : Nat) (t24 t25 t26 : String) (e : String)
    (evs : List CallEvent) (out : String)
    (hfail : (analyze_multi_year_chunked o cb t24 t25 t26).2 = .error e)
    (heq : analyze_multi_year_chunked o cb t24 t25 t26 = (evs, .ok out)) : False :=
  Except.noConfusion (hfail.symm.trans (congrArg Prod.snd heq))

/-- If an entity's analysis raises, the run writes no file for that
entity, and — when the entity is within the processed prefix — the
whole run ends in an error. -/
lemma runLoop_fail_no_file (o : Oracle) (cb : Nat) (t24 t25 t26 : String) (e : String)
    (hfail : (analyze_multi_year_chunked o cb t24 t25 t26).2 = .error e) :
    ∀ (items : List (Nat × String × String × String)) (i : Nat),
      (cb, t24, t25, t26) ∈ items → (items.map (fun x => x.1)).Nodup →
      (∀ f ∈ (runLoop o i items).2.1, f.1 ≠ cb) ∧
      ((cb, t24, t25, t26) ∈ items.take (5 - i) →
        ∃ e2, (runLoop o i items).2.2 = Except.error e2)
  | [], i, hm, _ => absurd hm (List.not_mem_nil _)
  | (cb', u24, u25, u26) :: rest, i, hm, hnd => by
      have hrest_nd : (rest.map (fun x => x.1)).Nodup := by
        have h := hnd
        rw [List.map_cons, List.nodup_cons] at h
        exact h.2
      by_cases h5 : 5 ≤ i
      · constructor
        · intro f hf
          rw [runLoop, if_pos h5] at hf
          simp at hf
        · intro htk
          have h0 : 5 - i = 0 := by omega
          rw [h0, List.take_zero] at htk
          simp at htk
      · constructor
        · intro f hf
          rw [runLoop, if_neg h5] at hf
          split at hf
          next evs e' heq =>
            simp at hf
          next evs out heq =>
            have hne : cb' ≠ cb := by
              intro hceq
              have heqp := nodup_keys_eq _ hnd ((cb', u24, u25, u26)) ((cb, t24, t25, t26))
                (List.mem_cons_self _ _) hm hceq
              injection heqp with hcbe hrest1
              injection hrest1 with h24 hrest2
              injection hrest2 with h25 h26
              rw [hcbe, h24, h25, h26] at heq
              exact analyze_ok_ne_fail o cb t24 t25 t26 e evs out hfail heq
            have hm' : ((cb : Nat), t24, t25, t26) ∈ rest := by
              rcases List.mem_cons.1 hm with hh | hh
              · exact absurd (congrArg (fun x => x.1) hh).symm hne
              · exact hh
            rcases List.mem_cons.1 hf with rfl | hf
            · exact hne
            · exact (runLoop_fail_no_file o cb t24 t25 t26 e hfail rest (i + 1)
                hm' hrest_nd).1 f hf
        · intro htk
          rw [runLoop, if_neg h5]
          split
          next evs e' heq => exact ⟨e', rfl⟩
          next evs out heq =>
            have h51 : 5 - i = (5 - (i + 1)) + 1 := by omega
            rw [h51, List.take_succ_cons] at htk
            have hm2 : ((cb : Nat), t24, t25, t26) ∈ rest.take (5 - (i + 1)) := by
              rcases List.mem_cons.1 htk with hh | hh
              · exfalso
                injection hh with hcbe hrest1
                injection hrest1 with h24 hrest2
                injection hrest2 with h25 h26
                rw [← hcbe, ← h24, ← h25, ← h26] at heq
                exact analyze_ok_ne_fail o cb t24 t25 t26 e evs out hfail heq
              · exact hh
            exact (runLoop_fail_no_file o cb t24 t25 t26 e hfail rest (i + 1)
              (List.take_subset _ _ hm2) hrest_nd).2 hm2

/-- C7: if the synthesis call for an entity fails, the entity's analysis
raises that failure (the entity's run is reported as failed), the run
writes no report file — not even a partial one — for that entity, and
whenever that entity is among the processed prefix the run as a whole
ends in an error. -/
theorem synthesis_failure_no_report (o : Oracle) (i : Nat)
    (items : List (Nat × String × String × String))
    (cb : Nat) (t24 t25 t26 : String) (e : String)
    (hmem : (cb, t24, t25, t26) ∈ items)
    (hnodup : (items.map (fun x => x.1)).Nodup)
    (hfail : o.synthesize cb (chunkAnalysesOf o cb t24 t25 t26) = .error e) :
    (analyze_multi_year_chunked o cb t24 t25 t26).2 = .error e ∧
    ((runLoop o i items).2.1.all fun f => f.1 != cb) = true ∧
    ((cb, t24, t25, t26) ∈ items.take (5 - i) →
      ∃ e2, (runLoop o i items).2.2 = Except.error e2) := by
  have hfail' : (analyze_multi_year_chunked o cb t24 t25 t26).2 = .error e := hfail
  obtain ⟨h1, h2⟩ := runLoop_fail_no_file o cb t24 t25 t26 e hfail' items i hmem hnodup
  refine ⟨hfail', ?_, h2⟩
  rw [List.all_eq_true]
  intro f hf
  rw [bne_iff_ne]
  exact h1 f hf

/-- C8 amended: a failure while processing an entity halts the
orchestrator: the run's trace ends with the failing entity's calls, no
file is written by this loop invocation, and the run ends with that
entity's error — no subsequent entity receives any comparator or
synthesizer call or file. -/
theorem run_halts_on_entity_failure (o : Oracle) (i : Nat) (cb : Nat)
    (t24 t25 t26 : String) (rest : List (Nat × String × String × String)) (e : String)
    (hi : i < 5)
    (hfail : (analyze_multi_year_chunked o cb t24 t25 t26).2 = .error e) :
    runLoop o i ((cb, t24, t25, t26) :: rest) =
      ((analyze_multi_year_chunked o cb t24 t25 t26).1, [], Except.error e) := by
  rw [runLoop, if_neg (by omega)]
  split
  next evs e' heq =>
    have h2 := congrArg Prod.snd heq
    rw [hfail] at h2
    injection h2 with he
    subst he
    have h1 := congrArg Prod.fst heq
    rw [h1]
  next evs out heq =>
    exact absurd (hfail.symm.trans (congrArg Prod.snd heq)) (fun h => Except.noConfusion h)

/-! ### Concrete instances for counterexamples and witnesses -/

/-- An oracle whose comparator calls all fail. -/
def oracleCompareFail : Oracle :=
  ⟨fun _ _ _ _ _ _ => .error "boom", fun _ _ => .ok "S"⟩

/-- An oracle whose synthesis calls all fail. -/
def oracleSynthFail : Oracle :=
  ⟨fun _ _ _ _ _ _ => .ok "A", fun _ _ => .error "boom"⟩

/-- A database with two eligible boards. -/
def dbTwo : List (Nat × List (String × String)) :=
  [(1, [("u2024", "a"), ("u2025", "b"), ("u2026", "c")]),
   (2, [("u2024", "a"), ("u2025", "b"), ("u2026", "c")])]

/-- A database with one board that has only two yearly documents. -/
def dbIncomplete : List (Nat × List (String × String)) :=
  [(7, [("u2024", "a"), ("u2025", "b")])]

/-- A database with six eligible boards. -/
def dbSix : List (Nat × List (String × String)) :=
  [(1, [("u2024", "a"), ("u2025", "b"), ("u2026", "c")]),
   (2, [("u2024", "a"), ("u2025", "b"), ("u2026", "c")]),
   (3, [("u2024", "a"), ("u2025", "b"), ("u2026", "c")]),
   (4, [("u2024", "a"), ("u2025", "b"), ("u2026", "c")]),
   (5, [("u2024", "a"), ("u2025", "b"), ("u2026", "c")]),
   (6, [("u2024", "a"), ("u2025", "b"), ("u2026", "c")])]

/-- C8 counterexample: board 2 is eligible and second in order, yet
after board 1's synthesis call fails the run ends with board 1's error
— board 2 receives no comparator call, no synthesizer call, and no
file.  A failed entity halts processing of subsequent entities. -/
theorem failed_entity_halts_counterexample :
    2 ∈ (get_statements_by_cb dbTwo).map (fun x => x.1) ∧
    (run oracleSynthFail dbTwo).2.2 = Except.error "boom" ∧
    ((run oracleSynthFail dbTwo).1.all fun ev => evCB ev != 2) = true ∧
    (run oracleSynthFail dbTwo).2.1 = [] := by
  refine ⟨by decide, by decide, by decide, by decide⟩

/-- Witness for C8's amended claim at a concrete failing run. -/
theorem run_halts_on_entity_failure_witness :
    (0 : Nat) < 5 ∧
    (analyze_multi_year_chunked oracleSynthFail 1 "a" "b" "c").2 = Except.error "boom" ∧
    runLoop oracleSynthFail 0 [(1, "a", "b", "c"), (2, "a", "b", "c")] =
      ((analyze_multi_year_chunked oracleSynthFail 1 "a" "b" "c").1, [],
        Except.error "boom") :=
  ⟨by decide, by decide,
    run_halts_on_entity_failure oracleSynthFail 0 1 "a" "b" "c"
      [(2, "a", "b", "c")] "boom" (by decide) (by decide)⟩

/-- Witness for C2 at a concrete single-section run. -/
theorem aligned_count_is_max_and_sentinel_witness :
    (CallEvent.compare 1 0 1 "a" "b" "c" ∈
      (analyze_multi_year_chunked oracleOk 1 "a" "b" "c").1) ∧
    (((analyze_multi_year_chunked oracleOk 1 "a" "b" "c").1.countP isCompare =
      max (max (chunk_text "a" 12000).length (chunk_text "b" 12000).length)
        (chunk_text "c" 12000).length) ∧
    1 = alignedCount "a" "b" "c" ∧
    0 < alignedCount "a" "b" "c" ∧
    ((chunk_text "a" 12000).length ≤ 0 → "a" = sentinel) ∧
    ((chunk_text "b" 12000).length ≤ 0 → "b" = sentinel) ∧
    ((chunk_text "c" 12000).length ≤ 0 → "c" = sentinel)) :=
  ⟨by decide,
    aligned_count_is_max_and_sentinel oracleOk 1 "a" "b" "c" 0 1 "a" "b" "c" (by decide)⟩

/-- Witness for C3 at a concrete run whose only comparator call fails. -/
theorem comparator_failure_isolated_witness :
    0 < alignedCount "a" "b" "c" ∧
    (oracleCompareFail.compare 1 0 (alignedCount "a" "b" "c")
      (getChunk (chunk_text "a" 12000) 0) (getChunk (chunk_text "b" 12000) 0)
      (getChunk (chunk_text "c" 12000) 0) = Except.error "boom") ∧
    ((chunkAnalysesOf oracleCompareFail 1 "a" "b" "c")[0]? =
      some ⟨0 + 1, errorAnalysis "boom"⟩ ∧
    (∀ j, j < alignedCount "a" "b" "c" →
      CallEvent.compare 1 j (alignedCount "a" "b" "c")
        (getChunk (chunk_text "a" 12000) j) (getChunk (chunk_text "b" 12000) j)
        (getChunk (chunk_text "c" 12000) j) ∈
        (analyze_multi_year_chunked oracleCompareFail 1 "a" "b" "c").1) ∧
    CallEvent.synth 1 (chunkAnalysesOf oracleCompareFail 1 "a" "b" "c") ∈
      (analyze_multi_year_chunked oracleCompareFail 1 "a" "b" "c").1) :=
  ⟨by decide, rfl,
    comparator_failure_isolated oracleCompareFail 1 "a" "b" "c" 0 "boom" (by decide) rfl⟩

/-- Witness for C7 at a concrete run whose synthesis call fails. -/
theorem synthesis_failure_no_report_witness :
    ((3, "a", "b", "c") ∈
      ([((3 : Nat), "a", "b", "c")] : List (Nat × String × String × String))) ∧
    ((([((3 : Nat), "a", "b", "c")] : List (Nat × String × String × String)).map
      (fun x => x.1)).Nodup) ∧
    (oracleSynthFail.synthesize 3 (chunkAnalysesOf oracleSynthFail 3 "a" "b" "c") =
      Except.error "boom") ∧
    ((analyze_multi_year_chunked oracleSynthFail 3 "a" "b" "c").2 =
      Except.error "boom" ∧
    ((runLoop oracleSynthFail 0 [((3 : Nat), "a", "b", "c")]).2.1.all
      fun f => f.1 != 3) = true ∧
    ((3, "a", "b", "c") ∈
        ([((3 : Nat), "a", "b", "c")] : List (Nat × String × String × String)).take (5 - 0) →
      ∃ e2, (runLoop oracleSynthFail 0 [((3 : Nat), "a", "b", "c")]).2.2 =
        Except.error e2)) :=
  ⟨by decide, by decide, rfl,
    synthesis_failure_no_report oracleSynthFail 0 [(3, "a", "b", "c")] 3 "a" "b" "c"
      "boom" (by decide) (by decide) rfl⟩

/-- Witness for C9 at a concrete board with only two yearly documents. -/
theorem incomplete_entity_excluded_witness :
    ((7, [("u2024", "a"), ("u2025", "b")]) ∈ dbIncomplete) ∧
    ((dbIncomplete.map (fun x => x.1)).Nodup) ∧
    yearCount (statementsOf [("u2024", "a"), ("u2025", "b")]) < 3 ∧
    (7 ∉ (get_statements_by_cb dbIncomplete).map (fun x => x.1) ∧
    ((run oracleOk dbIncomplete).1.all fun ev => evCB ev != 7) = true ∧
    ((run oracleOk dbIncomplete).2.1.all fun f => f.1 != 7) = true) :=
  ⟨by decide, by decide, by decide,
    incomplete_entity_excluded oracleOk dbIncomplete 7 [("u2024", "a"), ("u2025", "b")]
      (by decide) (by decide) (by decide)⟩

/-- Witness for C10 at a concrete database with six eligible boards. -/
theorem only_first_five_processed_witness :
    (((get_statements_by_cb dbSix).map (fun x => x.1)).Nodup) ∧
    ((6, "a", "b", "c") ∈ (get_statements_by_cb dbSix).drop 5) ∧
    (((run oracleOk dbSix).1.all fun ev => evCB ev != 6) = true ∧
    ((run oracleOk dbSix).2.1.all fun f => f.1 != 6) = true) :=
  ⟨by decide, by decide,
    only_first_five_processed oracleOk dbSix 6 "a" "b" "c" (by decide) (by decide)⟩
